import Mathlib

/-!
Shallow embedding of the dexscreener-js client (`src/index.ts`) and proofs
about its selection, projection, batching and extraction logic.

Modelling conventions:
* JavaScript numbers are modelled as `Int` (no claim under scrutiny depends
  on fractional values or NaN arithmetic; JS `x || 0` on a number is
  modelled by `jsOr`, which treats `0` and "absent" as falsy).
* Fields the code accesses defensively with `?.` are modelled as `Option`.
* Each HTTP round-trip is modelled by a `FetchOutcome` oracle value supplied
  as an explicit argument: `failure` covers network errors, non-ok statuses
  and JSON parse failures (all of which the code collapses into one catch /
  continue path); `success pairs?` covers an ok response whose `pairs`
  field is `pairs?` (`none` models an absent/null `pairs`, which the code
  replaces by `[]` via `data.pairs || []`).
* `new Date()` is modelled by an explicit `now : Int` argument.
* JS `parseFloat(s) || 0` is modelled by `jsOr (parseFloatJs s) 0`, where
  `parseFloatJs` returns `none` for an unparseable string (JS `NaN`).
-/

/-- One side of a trading pair (`baseToken` / `quoteToken` in the source). -/
structure TokenSide where
  address : String
  name : String
  symbol : String
  deriving DecidableEq, Repr

/-- Transaction counts for one window (`{ buys, sells }` in the source). -/
structure TxnWindow where
  buys : Int
  sells : Int
  deriving DecidableEq, Repr

/-- The four fixed transaction-count windows of a pair. -/
structure TxnInfo where
  m5 : TxnWindow
  h1 : TxnWindow
  h6 : TxnWindow
  h24 : TxnWindow
  deriving DecidableEq, Repr

/-- Volumes over the four fixed windows; each read with `?.` plus default. -/
structure VolumeInfo where
  h24 : Option Int
  h6 : Option Int
  h1 : Option Int
  m5 : Option Int
  deriving DecidableEq, Repr

/-- Price-change percentages over the four fixed windows. -/
structure PriceChangeInfo where
  m5 : Option Int
  h1 : Option Int
  h6 : Option Int
  h24 : Option Int
  deriving DecidableEq, Repr

/-- Liquidity of a pair (`{ usd, base, quote }` in the source). -/
structure LiquidityInfo where
  usd : Option Int
  base : Option Int
  quote : Option Int
  deriving DecidableEq, Repr

/-- A website entry of a pair's `info.websites` list. -/
structure WebsiteEntry where
  label : String
  url : String
  deriving DecidableEq, Repr

/-- A social-link entry of a pair's `info.socials` list. -/
structure SocialEntry where
  type : String
  url : String
  deriving DecidableEq, Repr

/-- Optional metadata of a pair (`info` in the source). -/
structure PairExtraInfo where
  imageUrl : Option String
  websites : Option (List WebsiteEntry)
  socials : Option (List SocialEntry)
  deriving DecidableEq, Repr

/-- A DexScreener trading-pair record (`DexScreenerPair` in the source).
Numeric fields the code guards with `?.` or `||` are `Option Int`. -/
structure DexScreenerPair where
  chainId : String
  dexId : String
  url : String
  pairAddress : String
  baseToken : TokenSide
  quoteToken : TokenSide
  priceNative : String
  priceUsd : String
  txns : TxnInfo
  volume : Option VolumeInfo
  priceChange : Option PriceChangeInfo
  liquidity : Option LiquidityInfo
  fdv : Option Int
  marketCap : Option Int
  pairCreatedAt : Int
  info : Option PairExtraInfo
  deriving DecidableEq, Repr

/-- The flattened metrics projection (`TokenMetrics` in the source). -/
structure TokenMetrics where
  ticker : String
  name : String
  chain : String
  contract : String
  priceUsd : Int
  priceChange24h : Int
  volume24h : Int
  liquidity : Int
  marketCap : Int
  fdv : Int
  pairUrl : String
  dex : String
  imageUrl : Option String
  fetchedAt : Int
  deriving DecidableEq, Repr

/-- Extracted social links (`TokenSocials` in the source). -/
structure TokenSocials where
  twitter : Option String
  telegram : Option String
  discord : Option String
  website : Option String
  deriving DecidableEq, Repr

/-- Outcome of one HTTP round-trip, as observed by the client code:
`failure` is any network error, non-ok status or JSON parse failure;
`success pairs?` is an ok JSON response whose `pairs` field parsed to
`pairs?` (`none` models an absent or null `pairs` array). -/
inductive FetchOutcome where
  | failure
  | success (pairsField : Option (List DexScreenerPair))
  deriving DecidableEq, Repr

/-- JS `x || d` for an optional number `x`: `none` (absent / NaN) and `0`
are falsy, every other integer is truthy. -/
def jsOr (x : Option Int) (d : Int) : Int :=
  match x with
  | none => d
  | some v => if v = 0 then d else v

/-- Digit-string value: `some` of the decimal value when every character
is a digit (and at least one is present), else `none`. -/
def parseDigits (ds : List Char) : Option Nat :=
  match ds with
  | [] => none
  | _ =>
    if ds.all Char.isDigit then
      some (ds.foldl (fun n c => n * 10 + (c.toNat - 48)) 0)
    else none

/-- Model of JS `parseFloat` restricted to the integer value space of this
development: an optional sign followed by decimal digits; `none` stands
for `NaN` (unparseable string). -/
def parseFloatJs (s : String) : Option Int :=
  match s.data with
  | '-' :: ds => (parseDigits ds).map (fun n => -(n : Int))
  | '+' :: ds => (parseDigits ds).map (fun n => (n : Int))
  | ds => (parseDigits ds).map (fun n => (n : Int))

/-- Model of JS `toUpperCase` (ASCII case mapping, character-wise); the
core library's `String.toUpper` is not kernel-reducible, so the embedding
maps over the character list instead. -/
def toUpperJs (s : String) : String :=
  String.mk (s.data.map Char.toUpper)

/-- Model of JS `toLowerCase` (ASCII case mapping, character-wise). -/
def toLowerJs (s : String) : String :=
  String.mk (s.data.map Char.toLower)

/-- The `CHAIN_MAP` table of the source. -/
def CHAIN_MAP : List (String × String) :=
  [("SOL", "solana"), ("ETH", "ethereum"), ("BASE", "base"),
   ("ARB", "arbitrum"), ("BSC", "bsc"), ("AVAX", "avalanche"),
   ("MATIC", "polygon"), ("FTM", "fantom"), ("OP", "optimism")]

/-- `normalizeChain` of the source: `CHAIN_MAP[chain.toUpperCase()] ||
chain.toLowerCase()` (no `CHAIN_MAP` value is falsy, so the JS `||`
is an ordinary lookup-with-default). -/
def normalizeChain (chain : String) : String :=
  match CHAIN_MAP.lookup (toUpperJs chain) with
  | some slug => slug
  | none => toLowerJs chain

/-- The liquidity key the selection code reads: `pair.liquidity?.usd || 0`. -/
def liqUsd (p : DexScreenerPair) : Int :=
  jsOr (p.liquidity.bind (·.usd)) 0

/-- One step of the best-liquidity `reduce` callback of the source:
keep `best` unless `pair` has strictly higher `liquidity?.usd || 0`. -/
def liqStep (best pair : DexScreenerPair) : DexScreenerPair :=
  if liqUsd pair > liqUsd best then pair else best

/-- The source's `list.reduce(liqStep, init)`: a left fold over the whole
list starting from the explicit initial value. -/
def reduceBest (init : DexScreenerPair) (l : List DexScreenerPair) : DexScreenerPair :=
  l.foldl liqStep init

/-- `searchToken` of the source, with the HTTP round-trip for the query
replaced by its `FetchOutcome`: on failure or an empty pair list returns
`none`, otherwise the pair with the highest `liquidity?.usd || 0`
(the source reduces over the whole list with `pairs[0]` as seed). -/
def searchToken (resp : FetchOutcome) : Option DexScreenerPair :=
  match resp with
  | .failure => none
  | .success pairsField =>
    let pairs := pairsField.getD []
    match pairs with
    | [] => none
    | p0 :: _ => some (reduceBest p0 pairs)

/-- `getTokenByAddress` of the source: normalizes the chain, and on a
successful response filters by the normalized chain when it is truthy
(non-empty); if the filter removes everything, falls back to `pairs[0]`,
otherwise reduces the filtered list to its best-liquidity pair. -/
def getTokenByAddress (chain : String) (resp : FetchOutcome) :
    Option DexScreenerPair :=
  match resp with
  | .failure => none
  | .success pairsField =>
    let chainId := normalizeChain chain
    let pairs := pairsField.getD []
    match pairs with
    | [] => none
    | p0 :: _ =>
      let filteredPairs := if chainId ≠ "" then
        pairs.filter (fun p => p.chainId = chainId) else pairs
      match filteredPairs with
      | [] => some p0
      | f0 :: _ => some (reduceBest f0 filteredPairs)

/-- `pairToMetrics` of the source; `now` models the `new Date()` stamp. -/
def pairToMetrics (pair : DexScreenerPair) (now : Int) : TokenMetrics :=
  { ticker := pair.baseToken.symbol
    name := pair.baseToken.name
    chain := toUpperJs pair.chainId
    contract := pair.baseToken.address
    priceUsd := jsOr (parseFloatJs pair.priceUsd) 0
    priceChange24h := jsOr (pair.priceChange.bind (·.h24)) 0
    volume24h := jsOr (pair.volume.bind (·.h24)) 0
    liquidity := jsOr (pair.liquidity.bind (·.usd)) 0
    marketCap := jsOr pair.marketCap (jsOr pair.fdv 0)
    fdv := jsOr pair.fdv 0
    pairUrl := pair.url
    dex := pair.dexId
    imageUrl := pair.info.bind (·.imageUrl)
    fetchedAt := now }

/-- The search query `getTokenMetrics` builds: `chain ? ticker ++ " " ++
chain : ticker`; a JS `undefined` or empty chain string is falsy. -/
def metricsQuery (ticker : String) (chain : Option String) : String :=
  match chain with
  | some c => if c = "" then ticker else ticker ++ " " ++ c
  | none => ticker

/-- `getTokenMetrics` of the source. The fetch oracle maps each search
query string to its outcome; the first search uses `metricsQuery ticker
chain`, and the retry (issued only on a case-insensitive symbol mismatch)
uses the ticker alone. -/
def getTokenMetrics (ticker : String) (chain : Option String)
    (fetch : String → FetchOutcome) (now : Int) : Option TokenMetrics :=
  match searchToken (fetch (metricsQuery ticker chain)) with
  | none => none
  | some pair =>
    if toUpperJs pair.baseToken.symbol ≠ toUpperJs ticker then
      match searchToken (fetch ticker) with
      | none => none
      | some retryPair =>
        if toUpperJs retryPair.baseToken.symbol ≠ toUpperJs ticker then none
        else some (pairToMetrics retryPair now)
    else some (pairToMetrics pair now)

/-- One iteration of the `extractSocials` loop body: lower-case the entry
type and overwrite the matching field (later entries overwrite earlier
ones). -/
def socialStep (acc : TokenSocials) (social : SocialEntry) : TokenSocials :=
  let t := toLowerJs social.type
  let acc := if t = "twitter" then { acc with twitter := some social.url } else acc
  let acc := if t = "telegram" then { acc with telegram := some social.url } else acc
  if t = "discord" then { acc with discord := some social.url } else acc

/-- `extractSocials` of the source: folds the social list (when present),
then sets `website` from `info?.websites?.[0]?.url` — note the JS `if`
tests the url's truthiness, so an empty-string url leaves `website`
absent. -/
def extractSocials (pair : DexScreenerPair) : TokenSocials :=
  let socials : TokenSocials :=
    { twitter := none, telegram := none, discord := none, website := none }
  let socials :=
    match pair.info.bind (·.socials) with
    | some entries => entries.foldl socialStep socials
    | none => socials
  match pair.info.bind (·.websites) with
  | some (w :: _) =>
    if w.url ≠ "" then { socials with website := some w.url } else socials
  | _ => socials

/-- Insertion-ordered map model of a JS `Map`: `set` on an existing key
updates the value in place (a JS map holds each key at most once, so
replacing the first occurrence is exact), otherwise appends the binding. -/
def mapSet (m : List (String × α)) (k : String) (v : α) : List (String × α) :=
  match m with
  | [] => [(k, v)]
  | kv :: t => if kv.1 = k then (k, v) :: t else kv :: mapSet t k v

/-- `Map.get` of the JS map model: value at the first matching key. -/
def mapGet (m : List (String × α)) (k : String) : Option α :=
  match m with
  | [] => none
  | kv :: t => if kv.1 = k then some kv.2 else mapGet t k

/-- Truthiness of an optional JS string: absent and empty are falsy. -/
def strTruthy : Option String → Bool
  | none => false
  | some s => s ≠ ""

/-- The `normalizedChain` local of `getTokensByAddresses`:
`chainFilter ? normalizeChain(chainFilter) : null` (an absent or empty
filter is falsy and yields `null`). -/
def mkNormalizedChain (chainFilter : Option String) : Option String :=
  match chainFilter with
  | none => none
  | some c => if c = "" then none else some (normalizeChain c)

/-- The `continue` guard of the grouping loop:
`normalizedChain && pair.chainId !== normalizedChain` (a JS string is
truthy iff non-empty). -/
def skipPair (normalizedChain : Option String) (p : DexScreenerPair) : Bool :=
  match normalizedChain with
  | some c => c ≠ "" && p.chainId ≠ c
  | none => false

/-- The `pairsByAddress` grouping loop of `getTokensByAddresses`: skip
pairs failing the chain guard, append each kept pair to its base-token
address group in the accumulator map. -/
def groupPairsLoop (normalizedChain : Option String) :
    List DexScreenerPair → List (String × List DexScreenerPair) →
    List (String × List DexScreenerPair)
  | [], m => m
  | pair :: rest, m =>
    if skipPair normalizedChain pair then groupPairsLoop normalizedChain rest m
    else
      let addr := pair.baseToken.address
      let existing := (mapGet m addr).getD []
      groupPairsLoop normalizedChain rest (mapSet m addr (existing ++ [pair]))

/-- Grouping of a chunk's pairs by base-token address, from an empty map. -/
def groupPairs (normalizedChain : Option String) (pairs : List DexScreenerPair) :
    List (String × List DexScreenerPair) :=
  groupPairsLoop normalizedChain pairs []

/-- Structural worker for the chunking loop: `fuel` bounds the number of
chunks (any value at least the list length works; each step consumes a
non-empty slice). The `0, _ :: _` branch is unreachable for such fuel. -/
def chunk30Go : Nat → List String → List (List String)
  | _, [] => []
  | 0, _ :: _ => []
  | fuel + 1, a :: rest => ((a :: rest).take 30) :: chunk30Go fuel ((a :: rest).drop 30)

/-- The chunking loop of `getTokensByAddresses`: consecutive slices of
`BATCH_SIZE = 30` addresses. -/
def chunk30 (l : List String) : List (List String) :=
  chunk30Go l.length l

/-- Observable effects of the batch loop: an HTTP request for a
comma-joined address list, or a timed pause. -/
inductive BatchEvent where
  | request (addressList : String)
  | pause (ms : Nat)
  deriving DecidableEq, Repr

/-- `BatchEvent.pause` recognizer. -/
def BatchEvent.isPause : BatchEvent → Bool
  | .pause _ => true
  | .request _ => false

/-- The per-chunk loop of `pairsByAddress` into `results`: for each group
pick the best-liquidity pair (`reduce` seeded with the group's first
element) and `set` it under the address; an empty group (unreachable, as
groups are built by appending) contributes nothing. -/
def insertBestLoop :
    List (String × List DexScreenerPair) → List (String × DexScreenerPair) →
    List (String × DexScreenerPair)
  | [], results => results
  | entry :: rest, results =>
    match entry.2 with
    | [] => insertBestLoop rest results
    | p0 :: _ => insertBestLoop rest (mapSet results entry.1 (reduceBest p0 entry.2))

/-- Insertion of every group's best pair into the running result map. -/
def insertBestPairs (results : List (String × DexScreenerPair))
    (grouped : List (String × List DexScreenerPair)) :
    List (String × DexScreenerPair) :=
  insertBestLoop grouped results

/-- The `for (const batch of batches)` loop of `getTokensByAddresses`.
`nBatches` is the total chunk count (the source tests `batches.length > 1`
for the pause); each chunk consumes the head of `responses` (missing
entries default to `failure`). On `failure` (network error, thrown parse,
or the `!response.ok` continue) nothing is processed and no pause
happens; on success the chunk is grouped and inserted, then a 100ms pause
is emitted whenever more than one chunk exists — including after the last
chunk, since the source tests the total count, not the position. -/
def runBatches (nc : Option String) (nBatches : Nat) :
    List (List String) → List FetchOutcome → List (String × DexScreenerPair) →
    List (String × DexScreenerPair) × List BatchEvent
  | [], _, results => (results, [])
  | batch :: rest, responses, results =>
    let requestEv := BatchEvent.request (String.intercalate "," batch)
    match responses.headD .failure with
    | .failure =>
      let out := runBatches nc nBatches rest responses.tail results
      (out.1, requestEv :: out.2)
    | .success pairsField =>
      let pairs := pairsField.getD []
      let results2 := insertBestPairs results (groupPairs nc pairs)
      let pauseEvs := if nBatches > 1 then [BatchEvent.pause 100] else []
      let out := runBatches nc nBatches rest responses.tail results2
      (out.1, requestEv :: (pauseEvs ++ out.2))

/-- `getTokensByAddresses` of the source, returning both the result map
and the trace of requests and pauses. The positional `responses` list is
the oracle: the i-th chunk's HTTP round-trip has outcome `responses[i]`. -/
def getTokensByAddresses (addresses : List String) (chainFilter : Option String)
    (responses : List FetchOutcome) :
    List (String × DexScreenerPair) × List BatchEvent :=
  if addresses.isEmpty then ([], [])
  else
    let nc := mkNormalizedChain chainFilter
    let batches := chunk30 addresses
    runBatches nc batches.length batches responses []

/-- A `batchGetMetrics` request record (`{ ticker, chain?, contract? }`). -/
structure MetricsRequest where
  ticker : String
  chain : Option String
  contract : Option String
  deriving DecidableEq, Repr

/-- Processing of one `batchGetMetrics` request: with a truthy contract
and chain, look the token up by address and project it; otherwise go
through `getTokenMetrics`. The oracle maps this request's index and a
query / address string to the fetch outcome. -/
def processRequest (oracle : Nat → String → FetchOutcome) (now : Int)
    (i : Nat) (token : MetricsRequest) : Option TokenMetrics :=
  if strTruthy token.contract && strTruthy token.chain then
    match getTokenByAddress (token.chain.getD "")
        (oracle i (token.contract.getD "")) with
    | some pair => some (pairToMetrics pair now)
    | none => none
  else
    getTokenMetrics token.ticker token.chain (oracle i) now

/-- The sequential loop of `batchGetMetrics`: process the requests in
order (the counter `i` numbers them for the oracle), inserting each
successful projection under the request's `ticker`. -/
def batchGetMetricsAux (oracle : Nat → String → FetchOutcome) (now : Int) :
    Nat → List MetricsRequest → List (String × TokenMetrics) →
    List (String × TokenMetrics)
  | _, [], results => results
  | i, token :: rest, results =>
    let results2 :=
      match processRequest oracle now i token with
      | some m => mapSet results token.ticker m
      | none => results
    batchGetMetricsAux oracle now (i + 1) rest results2

/-- `batchGetMetrics` of the source: sequentially process each request and
`set` any successful projection under the request's `ticker` (absent
results are omitted). The fixed 250ms pause after each request has no
effect on the result map and is not modelled. -/
def batchGetMetrics (tokens : List MetricsRequest)
    (oracle : Nat → String → FetchOutcome) (now : Int) :
    List (String × TokenMetrics) :=
  batchGetMetricsAux oracle now 0 tokens []

/-- A token side used by the concrete examples below. -/
def sampleSide : TokenSide :=
  { address := "addr0", name := "Token Zero", symbol := "ZERO" }

/-- All-zero transaction windows for the concrete examples. -/
def sampleTxns : TxnInfo :=
  { m5 := ⟨0, 0⟩, h1 := ⟨0, 0⟩, h6 := ⟨0, 0⟩, h24 := ⟨0, 0⟩ }

/-- A minimal concrete pair; the examples vary individual fields of it. -/
def basePair : DexScreenerPair :=
  { chainId := "solana", dexId := "raydium", url := "u", pairAddress := "pa"
    baseToken := sampleSide, quoteToken := sampleSide
    priceNative := "1", priceUsd := "1", txns := sampleTxns
    volume := none, priceChange := none, liquidity := none
    fdv := none, marketCap := none, pairCreatedAt := 0, info := none }

/-- A pair on chain `c` with USD liquidity `v`. -/
def pairLiq (c : String) (v : Int) : DexScreenerPair :=
  { basePair with chainId := c, liquidity := some ⟨some v, none, none⟩ }

/-- A concrete pair on ethereum whose base token has address "a". -/
def crossChainPair : DexScreenerPair :=
  { basePair with
    chainId := "ethereum",
    baseToken := { sampleSide with address := "a" } }

/-- Running maximum of `liquidity?.usd || 0` over a list, seeded at `i`. -/
def foldMax (i : Int) (l : List DexScreenerPair) : Int :=
  l.foldl (fun m q => max m (liqUsd q)) i

/-- Maximum `liquidity?.usd || 0` across a non-empty list (0 for `[]`). -/
def maxLiq : List DexScreenerPair → Int
  | [] => 0
  | p :: ps => foldMax (liqUsd p) ps

/-- Selection-key predicate: an element whose `liquidity?.usd || 0`
equals `m`. Used to state the first-maximum tie-break policy. -/
def isMaxAt (m : Int) (x : DexScreenerPair) : Bool :=
  liqUsd x == m

/-- The pause policy of the batch loop, stated independently of result
processing: each chunk emits its comma-joined request, followed by a
100ms pause exactly when that chunk's response succeeded and the batch
has more than one chunk (`multi`). -/
def pausePolicyTrace (multi : Bool) :
    List (List String) → List FetchOutcome → List BatchEvent
  | [], _ => []
  | b :: rest, rs =>
    [BatchEvent.request (String.intercalate "," b)] ++
      (match rs.headD .failure with
       | .failure => []
       | .success _ => if multi then [BatchEvent.pause 100] else []) ++
      pausePolicyTrace multi rest rs.tail

/-- Replace a failed round-trip by an ok response with no pairs; used to
state that a failed chunk contributes nothing but harms nothing. -/
def neutralize (r : FetchOutcome) : FetchOutcome :=
  match r with
  | .failure => .success none
  | .success x => .success x

/-- The pairs a fetch outcome delivers to the processing code. -/
def outcomePairs (r : FetchOutcome) : List DexScreenerPair :=
  match r with
  | .failure => []
  | .success x => x.getD []

/-- A concrete pair whose base-token symbol is `s`. -/
def pairSym (s : String) : DexScreenerPair :=
  { basePair with baseToken := { sampleSide with symbol := s } }

/-- URL of the last social entry whose lower-cased type equals `ty`
(later matches overwrite earlier ones), `none` when no entry matches. -/
def lastSocialUrl (ty : String) (entries : List SocialEntry) : Option String :=
  entries.foldl (fun o s => if toLowerJs s.type = ty then some s.url else o) none

/-! ### Best-liquidity selection lemmas -/

theorem liqUsd_liqStep (b p : DexScreenerPair) :
    liqUsd (liqStep b p) = max (liqUsd b) (liqUsd p) := by
  unfold liqStep
  by_cases h : liqUsd p > liqUsd b
  · simp only [if_pos h]
    exact (max_eq_right (le_of_lt h)).symm
  · simp only [if_neg h]
    exact (max_eq_left (not_lt.mp h)).symm

theorem foldMax_cons (i : Int) (p : DexScreenerPair) (l : List DexScreenerPair) :
    foldMax i (p :: l) = foldMax (max i (liqUsd p)) l := rfl

theorem le_foldMax (i : Int) (l : List DexScreenerPair) : i ≤ foldMax i l := by
  induction l generalizing i with
  | nil => simp [foldMax]
  | cons p t ih =>
    rw [foldMax_cons]
    exact le_trans (le_max_left _ _) (ih _)

theorem mem_le_foldMax (i : Int) (l : List DexScreenerPair) (p : DexScreenerPair)
    (hp : p ∈ l) : liqUsd p ≤ foldMax i l := by
  induction l generalizing i with
  | nil => cases hp
  | cons q t ih =>
    rw [foldMax_cons]
    rcases List.mem_cons.mp hp with h | h
    · subst h
      exact le_trans (le_max_right _ _) (le_foldMax _ _)
    · exact ih _ h

theorem foldMax_attained (i : Int) (l : List DexScreenerPair) :
    foldMax i l = i ∨ ∃ p ∈ l, foldMax i l = liqUsd p := by
  induction l generalizing i with
  | nil => left; rfl
  | cons q t ih =>
    rw [foldMax_cons]
    rcases ih (max i (liqUsd q)) with h | ⟨p, hp, he⟩
    · rcases le_or_lt (liqUsd q) i with hle | hlt
      · left; rw [h, max_eq_left hle]
      · right
        exact ⟨q, List.mem_cons_self _ _, by rw [h, max_eq_right (le_of_lt hlt)]⟩
    · right
      exact ⟨p, List.mem_cons_of_mem _ hp, he⟩

theorem reduceBest_cons (b p : DexScreenerPair) (l : List DexScreenerPair) :
    reduceBest b (p :: l) = reduceBest (liqStep b p) l := rfl

theorem liqUsd_reduceBest (b : DexScreenerPair) (l : List DexScreenerPair) :
    liqUsd (reduceBest b l) = foldMax (liqUsd b) l := by
  induction l generalizing b with
  | nil => rfl
  | cons p t ih =>
    rw [reduceBest_cons, ih, foldMax_cons, liqUsd_liqStep]

theorem reduceBest_mem (b : DexScreenerPair) (l : List DexScreenerPair) :
    reduceBest b l = b ∨ reduceBest b l ∈ l := by
  induction l generalizing b with
  | nil => left; rfl
  | cons p t ih =>
    rw [reduceBest_cons]
    by_cases hc : liqUsd p > liqUsd b
    · have hs : liqStep b p = p := by simp [liqStep, hc]
      rw [hs]
      rcases ih p with h | h
      · right; rw [h]; exact List.mem_cons_self _ _
      · right; exact List.mem_cons_of_mem _ h
    · have hs : liqStep b p = b := by simp [liqStep, hc]
      rw [hs]
      rcases ih b with h | h
      · left; exact h
      · right; exact List.mem_cons_of_mem _ h

theorem reduceBest_find (l : List DexScreenerPair) (b : DexScreenerPair) :
    (b :: l).find? (isMaxAt (foldMax (liqUsd b) l)) = some (reduceBest b l) := by
  induction l generalizing b with
  | nil =>
    have hb : isMaxAt (foldMax (liqUsd b) []) b = true := by
      simp [isMaxAt, foldMax]
    rw [List.find?_cons_of_pos _ hb]
    rfl
  | cons p t ih =>
    rw [foldMax_cons, reduceBest_cons]
    by_cases hc : liqUsd p > liqUsd b
    · have hs : liqStep b p = p := by simp [liqStep, hc]
      have h1 : liqUsd p ≤ foldMax (max (liqUsd b) (liqUsd p)) t := by
        rw [max_eq_right (le_of_lt hc)]
        exact le_foldMax _ _
      have hb : ¬ isMaxAt (foldMax (max (liqUsd b) (liqUsd p)) t) b = true := by
        simp only [isMaxAt, beq_iff_eq]
        omega
      rw [List.find?_cons_of_neg _ hb]
      have hIH := ih (liqStep b p)
      rw [liqUsd_liqStep] at hIH
      rw [hs] at hIH ⊢
      exact hIH
    · have hs : liqStep b p = b := by simp [liqStep, hc]
      have hmax : max (liqUsd b) (liqUsd p) = liqUsd b := max_eq_left (not_lt.mp hc)
      have hIH := ih (liqStep b p)
      rw [liqUsd_liqStep] at hIH
      rw [hs] at hIH
      rw [hmax] at hIH
      rw [hs, hmax]
      by_cases hbm : liqUsd b = foldMax (liqUsd b) t
      · have hb : isMaxAt (foldMax (liqUsd b) t) b = true := by
          simp only [isMaxAt, beq_iff_eq]
          exact hbm
        rw [List.find?_cons_of_pos _ hb]
        rw [List.find?_cons_of_pos _ hb] at hIH
        exact hIH
      · have hble := le_foldMax (liqUsd b) t
        have hple : liqUsd p ≤ liqUsd b := not_lt.mp hc
        have hb : ¬ isMaxAt (foldMax (liqUsd b) t) b = true := by
          simp only [isMaxAt, beq_iff_eq]
          exact hbm
        have hp : ¬ isMaxAt (foldMax (liqUsd b) t) p = true := by
          simp only [isMaxAt, beq_iff_eq]
          omega
        rw [List.find?_cons_of_neg _ hb, List.find?_cons_of_neg _ hp]
        rw [List.find?_cons_of_neg _ hb] at hIH
        exact hIH

theorem maxLiq_cons (p : DexScreenerPair) (ps : List DexScreenerPair) :
    maxLiq (p :: ps) = foldMax (liqUsd p) ps := rfl

theorem exists_liqUsd_eq_maxLiq (l : List DexScreenerPair) (h : l ≠ []) :
    ∃ p ∈ l, liqUsd p = maxLiq l := by
  cases l with
  | nil => cases h rfl
  | cons p ps =>
    rcases foldMax_attained (liqUsd p) ps with he | ⟨q, hq, he⟩
    · exact ⟨p, List.mem_cons_self _ _, by rw [maxLiq_cons, he]⟩
    · exact ⟨q, List.mem_cons_of_mem _ hq, by rw [maxLiq_cons, he]⟩

theorem le_maxLiq (l : List DexScreenerPair) (p : DexScreenerPair) (hp : p ∈ l) :
    liqUsd p ≤ maxLiq l := by
  cases l with
  | nil => cases hp
  | cons q ps =>
    rw [maxLiq_cons]
    rcases List.mem_cons.mp hp with h | h
    · subst h; exact le_foldMax _ _
    · exact mem_le_foldMax _ _ _ h

theorem maxLiq_perm (l l' : List DexScreenerPair) (h : l.Perm l') (hne : l ≠ []) :
    maxLiq l = maxLiq l' := by
  have hne' : l' ≠ [] := by
    intro he
    subst he
    exact hne h.eq_nil
  obtain ⟨p, hp, he⟩ := exists_liqUsd_eq_maxLiq l hne
  obtain ⟨q, hq, he'⟩ := exists_liqUsd_eq_maxLiq l' hne'
  have h1 : maxLiq l ≤ maxLiq l' := by
    rw [← he]
    exact le_maxLiq l' p (h.mem_iff.mp hp)
  have h2 : maxLiq l' ≤ maxLiq l := by
    rw [← he']
    exact le_maxLiq l q (h.mem_iff.mpr hq)
  omega

theorem searchToken_cons (p : DexScreenerPair) (ps : List DexScreenerPair) :
    searchToken (.success (some (p :: ps))) = some (reduceBest p (p :: ps)) := rfl

theorem liqUsd_reduceBest_self (p : DexScreenerPair) (ps : List DexScreenerPair) :
    liqUsd (reduceBest p (p :: ps)) = maxLiq (p :: ps) := by
  rw [liqUsd_reduceBest, foldMax_cons, max_self, maxLiq_cons]

theorem find?_cons_dup (a : DexScreenerPair) (t : List DexScreenerPair)
    (pr : DexScreenerPair → Bool) :
    (a :: a :: t).find? pr = (a :: t).find? pr := by
  by_cases h : pr a = true
  · rw [List.find?_cons_of_pos _ h, List.find?_cons_of_pos _ h]
  · rw [List.find?_cons_of_neg _ h]

theorem reduceBest_first_max (p : DexScreenerPair) (ps : List DexScreenerPair) :
    (p :: ps).find? (isMaxAt (maxLiq (p :: ps))) = some (reduceBest p (p :: ps)) := by
  have h := reduceBest_find (p :: ps) p
  rw [find?_cons_dup] at h
  rw [foldMax_cons, max_self, ← maxLiq_cons] at h
  exact h

/-- C5: for every non-empty list of pairs, the best-liquidity selection used
by `searchToken` returns a pair whose `liquidity?.usd || 0` equals the
maximum across the list; the kept pair is the earliest-encountered maximal
element (the first list element whose key equals the maximum); and for any
permutation of the list the selected pair's liquidity value is unchanged. -/
theorem searchToken_best_liquidity (l : List DexScreenerPair) (h : l ≠ []) :
    ∃ q, searchToken (.success (some l)) = some q
      ∧ liqUsd q = maxLiq l
      ∧ l.find? (isMaxAt (maxLiq l)) = some q
      ∧ ∀ l', l.Perm l' →
          ∃ q', searchToken (.success (some l')) = some q' ∧ liqUsd q' = liqUsd q := by
  cases l with
  | nil => cases h rfl
  | cons p ps =>
    refine ⟨reduceBest p (p :: ps), searchToken_cons p ps,
      liqUsd_reduceBest_self p ps, reduceBest_first_max p ps, ?_⟩
    intro l' hperm
    cases l' with
    | nil => exact absurd hperm.eq_nil (List.cons_ne_nil p ps)
    | cons q qs =>
      refine ⟨reduceBest q (q :: qs), searchToken_cons q qs, ?_⟩
      rw [liqUsd_reduceBest_self, liqUsd_reduceBest_self]
      exact (maxLiq_perm _ _ hperm (List.cons_ne_nil p ps)).symm

/-- Witness for the C5 theorem at a concrete list with a late duplicate
maximum: the selected pair carries the maximal liquidity value 9. -/
theorem searchToken_best_liquidity_witness :
    (searchToken (.success (some [pairLiq "a" 3, pairLiq "b" 9, pairLiq "c" 9]))).map liqUsd
      = some (maxLiq [pairLiq "a" 3, pairLiq "b" 9, pairLiq "c" 9]) := by
  obtain ⟨q, h1, h2, h3, h4⟩ :=
    searchToken_best_liquidity [pairLiq "a" 3, pairLiq "b" 9, pairLiq "c" 9]
      (List.cons_ne_nil _ _)
  rw [h1]
  simp only [Option.map_some']
  rw [h2]

/-- C9: with the empty string as chain, `normalizeChain` returns the empty
string, chain filtering in `getTokenByAddress` is disabled, and the
operation returns a maximum-liquidity pair across all returned pairs. -/
theorem getTokenByAddress_empty_chain (l : List DexScreenerPair) (h : l ≠ []) :
    normalizeChain "" = ""
      ∧ ∃ q, getTokenByAddress "" (.success (some l)) = some q
          ∧ q ∈ l ∧ liqUsd q = maxLiq l := by
  have h0 : normalizeChain "" = "" := by decide
  refine ⟨h0, ?_⟩
  cases l with
  | nil => cases h rfl
  | cons p ps =>
    have hq : getTokenByAddress "" (.success (some (p :: ps)))
        = some (reduceBest p (p :: ps)) := by
      simp [getTokenByAddress, h0]
    have hmem : reduceBest p (p :: ps) ∈ p :: ps := by
      rcases reduceBest_mem p (p :: ps) with he | he
      · rw [he]; exact List.mem_cons_self _ _
      · exact he
    exact ⟨_, hq, hmem, liqUsd_reduceBest_self p ps⟩

/-- Witness for the C9 theorem: a two-pair response on distinct chains,
fetched with the empty chain string, yields the liquidity-2 pair. -/
theorem getTokenByAddress_empty_chain_witness :
    normalizeChain "" = ""
      ∧ (getTokenByAddress "" (.success (some [pairLiq "x" 1, pairLiq "y" 2]))).map liqUsd
          = some 2 := by
  obtain ⟨h0, q, h1, hmem, h2⟩ :=
    getTokenByAddress_empty_chain [pairLiq "x" 1, pairLiq "y" 2] (List.cons_ne_nil _ _)
  refine ⟨h0, ?_⟩
  rw [h1]
  simp only [Option.map_some']
  rw [h2]
  decide

/-- C1 counterexample: a "solana" lookup whose successful response holds
two ethereum pairs (liquidities 5 and 10, no solana pair) returns the
first pair of the response, whose liquidity 5 is NOT the maximum 10 —
the claimed globally-best-liquidity fallback does not hold. -/
theorem getTokenByAddress_fallback_cex :
    getTokenByAddress "solana"
        (.success (some [pairLiq "ethereum" 5, pairLiq "ethereum" 10]))
      = some (pairLiq "ethereum" 5)
    ∧ liqUsd (pairLiq "ethereum" 5) = 5
    ∧ maxLiq [pairLiq "ethereum" 5, pairLiq "ethereum" 10] = 10
    ∧ (pairLiq "ethereum" 5).chainId ≠ normalizeChain "solana"
    ∧ (pairLiq "ethereum" 10).chainId ≠ normalizeChain "solana" := by
  refine ⟨by decide, by decide, by decide, by decide, by decide⟩

/-- C1 (amended): when a successful response is non-empty and no returned
pair lies on the normalized (non-empty) chain, `getTokenByAddress`
returns the FIRST returned pair rather than absent. -/
theorem getTokenByAddress_fallback_first (chain : String)
    (p0 : DexScreenerPair) (ps : List DexScreenerPair)
    (hchain : normalizeChain chain ≠ "")
    (hnone : ∀ p ∈ p0 :: ps, p.chainId ≠ normalizeChain chain) :
    getTokenByAddress chain (.success (some (p0 :: ps))) = some p0 := by
  have hfilter : (p0 :: ps).filter
      (fun p => decide (p.chainId = normalizeChain chain)) = [] := by
    rw [List.filter_eq_nil_iff]
    intro a ha
    simp only [decide_eq_true_eq]
    exact hnone a ha
  simp [getTokenByAddress, hchain, hfilter]

/-- Witness for the amended C1 theorem at a concrete one-pair mismatching
response. -/
theorem getTokenByAddress_fallback_first_witness :
    getTokenByAddress "solana" (.success (some [pairLiq "ethereum" 7]))
      = some (pairLiq "ethereum" 7) :=
  getTokenByAddress_fallback_first "solana" (pairLiq "ethereum" 7) []
    (by decide) (by decide)

/-- C6: `pairToMetrics` is total (a Lean function on all pairs, with no
failure path): an unparseable `priceUsd` string yields `priceUsd = 0`, a
missing `priceChange.h24` yields `priceChange24h = 0`, the other absent
numeric sub-fields default to 0, and `marketCap` falls back to the
(defaulted) `fdv` whenever the pair's market cap is zero or absent. -/
theorem pairToMetrics_defaults (p : DexScreenerPair) (now : Int) :
    (parseFloatJs p.priceUsd = none → (pairToMetrics p now).priceUsd = 0)
    ∧ (p.priceChange.bind (·.h24) = none → (pairToMetrics p now).priceChange24h = 0)
    ∧ (p.volume.bind (·.h24) = none → (pairToMetrics p now).volume24h = 0)
    ∧ (p.liquidity.bind (·.usd) = none → (pairToMetrics p now).liquidity = 0)
    ∧ (p.fdv = none → (pairToMetrics p now).fdv = 0)
    ∧ ((p.marketCap = none ∨ p.marketCap = some 0) →
        (pairToMetrics p now).marketCap = jsOr p.fdv 0) := by
  refine ⟨?_, ?_, ?_, ?_, ?_, ?_⟩
  · intro h; simp [pairToMetrics, jsOr, h]
  · intro h; simp [pairToMetrics, jsOr, h]
  · intro h; simp [pairToMetrics, jsOr, h]
  · intro h; simp [pairToMetrics, jsOr, h]
  · intro h; simp [pairToMetrics, jsOr, h]
  · intro h
    rcases h with h | h <;> simp [pairToMetrics, jsOr, h]

/-- Witness for the C6 theorem: market cap 0 with FDV 500 projects to
market cap 500; an absent `priceChange` and an unparseable price string
project to 0. -/
theorem pairToMetrics_defaults_witness :
    (pairToMetrics { basePair with
        marketCap := some 0, fdv := some 500, priceUsd := "zzz" } 0).marketCap = 500
    ∧ (pairToMetrics { basePair with
        marketCap := some 0, fdv := some 500, priceUsd := "zzz" } 0).priceChange24h = 0
    ∧ (pairToMetrics { basePair with
        marketCap := some 0, fdv := some 500, priceUsd := "zzz" } 0).priceUsd = 0 := by
  have h := pairToMetrics_defaults
    { basePair with marketCap := some 0, fdv := some 500, priceUsd := "zzz" } 0
  exact ⟨(h.2.2.2.2.2 (Or.inr (by decide))).trans (by decide),
    h.2.1 (by decide), h.1 (by decide)⟩

/-- C3: `getTokenMetrics` compares the first search result's base-token
symbol case-insensitively with the ticker: on a match it returns that
pair's projection; on a mismatch it consults the retry search keyed by
the ticker alone, returning the retry pair's projection when the retry
matches and absent when the retry is absent or also mismatches. -/
theorem getTokenMetrics_retry (ticker : String) (chain : Option String)
    (fetch : String → FetchOutcome) (now : Int) :
    (∀ p, searchToken (fetch (metricsQuery ticker chain)) = some p →
        toUpperJs p.baseToken.symbol = toUpperJs ticker →
        getTokenMetrics ticker chain fetch now = some (pairToMetrics p now))
    ∧ (∀ p, searchToken (fetch (metricsQuery ticker chain)) = some p →
        toUpperJs p.baseToken.symbol ≠ toUpperJs ticker →
        searchToken (fetch ticker) = none →
        getTokenMetrics ticker chain fetch now = none)
    ∧ (∀ p rp, searchToken (fetch (metricsQuery ticker chain)) = some p →
        toUpperJs p.baseToken.symbol ≠ toUpperJs ticker →
        searchToken (fetch ticker) = some rp →
        toUpperJs rp.baseToken.symbol ≠ toUpperJs ticker →
        getTokenMetrics ticker chain fetch now = none)
    ∧ (∀ p rp, searchToken (fetch (metricsQuery ticker chain)) = some p →
        toUpperJs p.baseToken.symbol ≠ toUpperJs ticker →
        searchToken (fetch ticker) = some rp →
        toUpperJs rp.baseToken.symbol = toUpperJs ticker →
        getTokenMetrics ticker chain fetch now = some (pairToMetrics rp now)) := by
  refine ⟨?_, ?_, ?_, ?_⟩
  · intro p h1 heq
    simp [getTokenMetrics, h1, heq]
  · intro p h1 hne h2
    simp [getTokenMetrics, h1, hne, h2]
  · intro p rp h1 hne h2 hne2
    simp [getTokenMetrics, h1, hne, h2, hne2]
  · intro p rp h1 hne h2 heq
    simp [getTokenMetrics, h1, hne, h2, heq]

/-- Witness for the C3 theorem: searching ticker "X" with chain "sol"
returns a fuzzy pair with symbol "Y"; the retry on "X" alone returns a
pair with symbol "X", whose projection is the result. -/
theorem getTokenMetrics_retry_witness :
    getTokenMetrics "X" (some "sol")
        (fun q => if q = "X sol" then .success (some [pairSym "Y"])
          else if q = "X" then .success (some [pairSym "X"]) else .failure) 3
      = some (pairToMetrics (pairSym "X") 3) :=
  (getTokenMetrics_retry "X" (some "sol")
      (fun q => if q = "X sol" then .success (some [pairSym "Y"])
        else if q = "X" then .success (some [pairSym "X"]) else .failure) 3).2.2.2
    (pairSym "Y") (pairSym "X") (by decide) (by decide) (by decide) (by decide)

theorem socialStep_twitter (acc : TokenSocials) (s : SocialEntry) :
    (socialStep acc s).twitter
      = if toLowerJs s.type = "twitter" then some s.url else acc.twitter := by
  simp only [socialStep]
  by_cases h1 : toLowerJs s.type = "twitter" <;>
    by_cases h2 : toLowerJs s.type = "telegram" <;>
      by_cases h3 : toLowerJs s.type = "discord" <;>
        simp [h1, h2, h3]

theorem socialStep_telegram (acc : TokenSocials) (s : SocialEntry) :
    (socialStep acc s).telegram
      = if toLowerJs s.type = "telegram" then some s.url else acc.telegram := by
  simp only [socialStep]
  by_cases h1 : toLowerJs s.type = "twitter" <;>
    by_cases h2 : toLowerJs s.type = "telegram" <;>
      by_cases h3 : toLowerJs s.type = "discord" <;>
        simp [h1, h2, h3]

theorem socialStep_discord (acc : TokenSocials) (s : SocialEntry) :
    (socialStep acc s).discord
      = if toLowerJs s.type = "discord" then some s.url else acc.discord := by
  simp only [socialStep]
  by_cases h1 : toLowerJs s.type = "twitter" <;>
    by_cases h2 : toLowerJs s.type = "telegram" <;>
      by_cases h3 : toLowerJs s.type = "discord" <;>
        simp [h1, h2, h3]

theorem socialStep_website (acc : TokenSocials) (s : SocialEntry) :
    (socialStep acc s).website = acc.website := by
  simp only [socialStep]
  by_cases h1 : toLowerJs s.type = "twitter" <;>
    by_cases h2 : toLowerJs s.type = "telegram" <;>
      by_cases h3 : toLowerJs s.type = "discord" <;>
        simp [h1, h2, h3]

theorem foldSocials_twitter (l : List SocialEntry) (acc : TokenSocials) :
    (l.foldl socialStep acc).twitter
      = l.foldl (fun o s => if toLowerJs s.type = "twitter" then some s.url else o)
          acc.twitter := by
  induction l generalizing acc with
  | nil => rfl
  | cons s t ih =>
    rw [List.foldl_cons, List.foldl_cons, ih, socialStep_twitter]

theorem foldSocials_telegram (l : List SocialEntry) (acc : TokenSocials) :
    (l.foldl socialStep acc).telegram
      = l.foldl (fun o s => if toLowerJs s.type = "telegram" then some s.url else o)
          acc.telegram := by
  induction l generalizing acc with
  | nil => rfl
  | cons s t ih =>
    rw [List.foldl_cons, List.foldl_cons, ih, socialStep_telegram]

theorem foldSocials_discord (l : List SocialEntry) (acc : TokenSocials) :
    (l.foldl socialStep acc).discord
      = l.foldl (fun o s => if toLowerJs s.type = "discord" then some s.url else o)
          acc.discord := by
  induction l generalizing acc with
  | nil => rfl
  | cons s t ih =>
    rw [List.foldl_cons, List.foldl_cons, ih, socialStep_discord]

theorem foldSocials_website (l : List SocialEntry) (acc : TokenSocials) :
    (l.foldl socialStep acc).website = acc.website := by
  induction l generalizing acc with
  | nil => rfl
  | cons s t ih =>
    rw [List.foldl_cons, ih, socialStep_website]

/-- C7 counterexample: a pair whose website list is non-empty but whose
first entry has the empty string as URL yields an ABSENT website (the
source tests the URL's truthiness), contradicting the claim that the
first entry's URL is returned whenever the website list is non-empty. -/
theorem extractSocials_cex :
    (extractSocials { basePair with
        info := some ⟨none, some [⟨"home", ""⟩], none⟩ }).website = none
    ∧ ({ basePair with info := some ⟨none, some [⟨"home", ""⟩], none⟩
        : DexScreenerPair }).info.bind (·.websites) = some [⟨"home", ""⟩] := by
  refine ⟨by decide, by decide⟩

/-- C7 (amended): for every pair, `extractSocials` returns, per type
"twitter" / "telegram" / "discord", the URL of the last case-insensitively
matching social entry (absent when none matches), and returns as website
the URL of the first entry of the website list — except that a missing or
empty website list, or a first entry whose URL is the empty string,
yields an absent website. -/
theorem extractSocials_spec (pair : DexScreenerPair) :
    (extractSocials pair).twitter
      = lastSocialUrl "twitter" ((pair.info.bind (·.socials)).getD [])
    ∧ (extractSocials pair).telegram
      = lastSocialUrl "telegram" ((pair.info.bind (·.socials)).getD [])
    ∧ (extractSocials pair).discord
      = lastSocialUrl "discord" ((pair.info.bind (·.socials)).getD [])
    ∧ (extractSocials pair).website
      = (match (pair.info.bind (·.websites)).getD [] with
        | [] => none
        | w :: _ => if w.url = "" then none else some w.url) := by
  cases hinfo : pair.info with
  | none =>
    simp [extractSocials, hinfo, lastSocialUrl]
  | some inf =>
    rcases inf with ⟨img, webs, socs⟩
    cases socs with
    | none =>
      cases webs with
      | none => simp [extractSocials, hinfo, lastSocialUrl]
      | some wl =>
        cases wl with
        | nil => simp [extractSocials, hinfo, lastSocialUrl]
        | cons w ws =>
          by_cases hw : w.url = "" <;>
            simp [extractSocials, hinfo, lastSocialUrl, hw]
    | some entries =>
      cases webs with
      | none =>
        simp [extractSocials, hinfo, lastSocialUrl, foldSocials_twitter,
          foldSocials_telegram, foldSocials_discord, foldSocials_website]
      | some wl =>
        cases wl with
        | nil =>
          simp [extractSocials, hinfo, lastSocialUrl, foldSocials_twitter,
            foldSocials_telegram, foldSocials_discord, foldSocials_website]
        | cons w ws =>
          by_cases hw : w.url = "" <;>
            simp [extractSocials, hinfo, lastSocialUrl, hw, foldSocials_twitter,
              foldSocials_telegram, foldSocials_discord, foldSocials_website]

theorem mapGet_mapSet (m : List (String × α)) (k : String) (v : α) (k' : String) :
    mapGet (mapSet m k v) k' = if k' = k then some v else mapGet m k' := by
  induction m with
  | nil =>
    by_cases h : k' = k
    · subst h; simp [mapSet, mapGet]
    · simp [mapSet, mapGet, h, Ne.symm h]
  | cons kv t ih =>
    by_cases h1 : kv.1 = k
    · by_cases h2 : k' = k
      · subst h2; simp [mapSet, mapGet, h1]
      · have h3 : kv.1 ≠ k' := by rw [h1]; exact Ne.symm h2
        simp [mapSet, mapGet, h1, h2, h3, Ne.symm h2]
    · by_cases h2 : k' = k
      · subst h2
        have h3 : kv.1 ≠ k' := h1
        simp [mapSet, mapGet, h1, h3, ih]
      · simp [mapSet, mapGet, h1, h2, ih]

theorem batchGetMetricsAux_key_mem (oracle : Nat → String → FetchOutcome)
    (now : Int) (l : List MetricsRequest) (i : Nat)
    (acc : List (String × TokenMetrics)) (k : String)
    (h : (mapGet (batchGetMetricsAux oracle now i l acc) k).isSome = true) :
    (mapGet acc k).isSome = true ∨ k ∈ l.map (·.ticker) := by
  induction l generalizing i acc with
  | nil => exact Or.inl h
  | cons token rest ih =>
    simp only [batchGetMetricsAux] at h
    rcases ih _ _ h with h2 | h2
    · cases hp : processRequest oracle now i token with
      | none =>
        rw [hp] at h2
        exact Or.inl h2
      | some m =>
        rw [hp] at h2
        rw [mapGet_mapSet] at h2
        by_cases hk : k = token.ticker
        · right
          rw [List.map_cons, hk]
          exact List.mem_cons_self _ _
        · rw [if_neg hk] at h2
          exact Or.inl h2
    · right
      rw [List.map_cons]
      exact List.mem_cons_of_mem _ h2

/-- C10: `batchGetMetrics` keys its result map by each request's `ticker`
as given: every key of the result map is some request's ticker; when two
requests carry the same ticker, the later request's successful result is
the one found under that ticker; and in the contract-plus-chain path the
key is the request's ticker even though the fetched pair's base-token
symbol plays no role in the key. -/
theorem batchGetMetrics_keys (oracle : Nat → String → FetchOutcome) (now : Int) :
    (∀ tokens k, (mapGet (batchGetMetrics tokens oracle now) k).isSome = true →
        k ∈ tokens.map (·.ticker))
    ∧ (∀ t1 t2 m2, t1.ticker = t2.ticker →
        processRequest oracle now 1 t2 = some m2 →
        mapGet (batchGetMetrics [t1, t2] oracle now) t1.ticker = some m2)
    ∧ (∀ t pair, strTruthy t.contract = true → strTruthy t.chain = true →
        getTokenByAddress (t.chain.getD "") (oracle 0 (t.contract.getD "")) = some pair →
        mapGet (batchGetMetrics [t] oracle now) t.ticker
          = some (pairToMetrics pair now)) := by
  refine ⟨?_, ?_, ?_⟩
  · intro tokens k h
    rcases batchGetMetricsAux_key_mem oracle now tokens 0 [] k h with h2 | h2
    · simp [mapGet] at h2
    · exact h2
  · intro t1 t2 m2 hticker h2
    simp only [batchGetMetrics, batchGetMetricsAux, h2]
    cases hp : processRequest oracle now 0 t1 <;>
      simp [hp, hticker, mapGet_mapSet]
  · intro t pair hc hch hget
    simp only [batchGetMetrics, batchGetMetricsAux, processRequest, hc, hch,
      Bool.and_self, if_pos, hget]
    simp [mapGet_mapSet]

/-- Witness for the C10 theorem: a contract-plus-chain request with ticker
"TICK" whose fetched pair has base symbol "OTHER" is keyed as "TICK". -/
theorem batchGetMetrics_keys_witness :
    mapGet (batchGetMetrics [⟨"TICK", some "solana", some "c0"⟩]
        (fun _ _ => .success (some [pairSym "OTHER"])) 0) "TICK"
      = some (pairToMetrics (pairSym "OTHER") 0) :=
  (batchGetMetrics_keys (fun _ _ => .success (some [pairSym "OTHER"])) 0).2.2
    ⟨"TICK", some "solana", some "c0"⟩ (pairSym "OTHER")
    (by decide) (by decide) (by decide)

theorem chunk30Go_fuel (fuel : Nat) (l : List String) (h : l.length ≤ fuel) :
    chunk30Go fuel l = chunk30Go l.length l := by
  induction fuel using Nat.strong_induction_on generalizing l with
  | _ fuel ih =>
    match fuel, l with
    | 0, [] => rfl
    | f + 1, [] => rfl
    | 0, a :: t => simp at h
    | f + 1, a :: t =>
      simp only [chunk30Go, List.length_cons]
      congr 1
      have hlt : ((a :: t).drop 30).length ≤ t.length := by
        simp [List.length_drop]
      have hf : ((a :: t).drop 30).length ≤ f := by
        simp only [List.length_cons] at h
        omega
      have ht : t.length ≤ f := by
        simp only [List.length_cons] at h
        omega
      rw [ih f (Nat.lt_succ_self f) _ hf,
        ih t.length (Nat.lt_succ_of_le ht) _ hlt]

theorem chunk30_nil : chunk30 [] = [] := rfl

theorem chunk30_cons (a : String) (rest : List String) :
    chunk30 (a :: rest)
      = ((a :: rest).take 30) :: chunk30 ((a :: rest).drop 30) := by
  show chunk30Go (rest.length + 1) (a :: rest) = _
  simp only [chunk30Go]
  congr 1
  exact chunk30Go_fuel rest.length _ (by simp [List.length_drop])

theorem chunk30_eq (l : List String) :
    chunk30 l = if l = [] then [] else l.take 30 :: chunk30 (l.drop 30) := by
  cases l with
  | nil => rfl
  | cons a rest =>
    rw [chunk30_cons, if_neg (List.cons_ne_nil a rest)]

theorem chunk30_length_le (l : List String) : ∀ c ∈ chunk30 l, c.length ≤ 30 := by
  have key : ∀ n (l : List String), l.length = n → ∀ c ∈ chunk30 l, c.length ≤ 30 := by
    intro n
    induction n using Nat.strong_induction_on with
    | _ n ih =>
      intro l hn
      cases l with
      | nil => intro c hc; rw [chunk30_nil] at hc; cases hc
      | cons a rest =>
        intro c hc
        rw [chunk30_cons] at hc
        rcases List.mem_cons.mp hc with h | h
        · subst h
          rw [List.length_take]
          exact min_le_left _ _
        · have hlt : ((a :: rest).drop 30).length < n := by
            rw [List.length_drop, ← hn]
            simp only [List.length_cons]
            omega
          exact ih _ hlt _ rfl c h
  exact key l.length l rfl

theorem chunk30_flatten (l : List String) : (chunk30 l).flatten = l := by
  have key : ∀ n (l : List String), l.length = n → (chunk30 l).flatten = l := by
    intro n
    induction n using Nat.strong_induction_on with
    | _ n ih =>
      intro l hn
      cases l with
      | nil => rw [chunk30_nil]; rfl
      | cons a rest =>
        rw [chunk30_cons, List.flatten_cons]
        have hlt : ((a :: rest).drop 30).length < n := by
          rw [List.length_drop, ← hn]
          simp only [List.length_cons]
          omega
        rw [ih _ hlt _ rfl]
        exact List.take_append_drop 30 (a :: rest)
  exact key l.length l rfl

theorem chunk30_sizes_65 (l : List String) (h : l.length = 65) :
    (chunk30 l).map List.length = [30, 30, 5] := by
  have h1 : l ≠ [] := by intro he; rw [he] at h; simp at h
  have hd1 : (l.drop 30).length = 35 := by rw [List.length_drop, h]
  have h2 : l.drop 30 ≠ [] := by intro he; rw [he] at hd1; simp at hd1
  have hd2 : ((l.drop 30).drop 30).length = 5 := by rw [List.length_drop, hd1]
  have h3 : (l.drop 30).drop 30 ≠ [] := by intro he; rw [he] at hd2; simp at hd2
  have hd3 : ((l.drop 30).drop 30).drop 30 = [] := by
    rw [← List.length_eq_zero]
    rw [List.length_drop, hd2]
  rw [chunk30_eq, if_neg h1, chunk30_eq, if_neg h2, chunk30_eq, if_neg h3,
    hd3, chunk30_nil]
  simp [List.length_take, h, hd1, hd2]

theorem runBatches_trace (nc : Option String) (n : Nat) (bs : List (List String))
    (rs : List FetchOutcome) (res : List (String × DexScreenerPair)) :
    (runBatches nc n bs rs res).2 = pausePolicyTrace (decide (n > 1)) bs rs := by
  induction bs generalizing rs res with
  | nil => rfl
  | cons b rest ih =>
    simp only [runBatches, pausePolicyTrace]
    cases h : rs.headD .failure with
    | failure => simp [h, ih]
    | success pf =>
      by_cases hn : n > 1
      · simp [h, hn, ih]
      · simp [h, hn, ih]

theorem isPause_request (s : String) : (BatchEvent.request s).isPause = false := rfl

theorem isPause_pause (n : Nat) : (BatchEvent.pause n).isPause = true := rfl

theorem pausePolicyTrace_requests (multi : Bool) (bs : List (List String))
    (rs : List FetchOutcome) :
    (pausePolicyTrace multi bs rs).filter (fun e => !e.isPause)
      = bs.map (fun b => BatchEvent.request (String.intercalate "," b)) := by
  induction bs generalizing rs with
  | nil => rfl
  | cons b rest ih =>
    simp only [pausePolicyTrace]
    cases h : rs.headD .failure with
    | failure => simp [isPause_request, ih]
    | success pf =>
      cases multi <;> simp [isPause_request, isPause_pause, ih]

theorem pausePolicyTrace_countP_false (bs : List (List String))
    (rs : List FetchOutcome) :
    (pausePolicyTrace false bs rs).countP BatchEvent.isPause = 0 := by
  induction bs generalizing rs with
  | nil => rfl
  | cons b rest ih =>
    simp only [pausePolicyTrace]
    cases h : rs.headD .failure <;>
      simp [List.countP_append, List.countP_cons, isPause_request, ih]

theorem runBatches_neutralize (nc : Option String) (n : Nat)
    (bs : List (List String)) (rs : List FetchOutcome)
    (res : List (String × DexScreenerPair)) :
    (runBatches nc n bs (rs.map neutralize) res).1
      = (runBatches nc n bs rs res).1 := by
  induction bs generalizing rs res with
  | nil => rfl
  | cons b rest ih =>
    cases rs with
    | nil => rfl
    | cons r rt =>
      cases r with
      | failure =>
        simp only [List.map_cons, neutralize, runBatches, List.headD_cons,
          List.tail_cons, Option.getD_none]
        simpa [groupPairs, groupPairsLoop, insertBestPairs, insertBestLoop]
          using ih rt res
      | success pf =>
        simp only [List.map_cons, neutralize, runBatches, List.headD_cons,
          List.tail_cons]
        exact ih rt _

/-- C4: addresses are chunked into consecutive slices of at most 30 whose
concatenation is the input (65 addresses give sizes 30, 30, 5); the trace
holds exactly one comma-joined request per chunk; and replacing any
failed chunk responses by empty successes leaves the result map unchanged
(a failed chunk is skipped, all other chunks' results still appear). -/
theorem getTokensByAddresses_chunking :
    (∀ addresses : List String, ∀ c ∈ chunk30 addresses, c.length ≤ 30)
    ∧ (∀ addresses : List String, (chunk30 addresses).flatten = addresses)
    ∧ (∀ addresses : List String, addresses.length = 65 →
        (chunk30 addresses).map List.length = [30, 30, 5])
    ∧ (∀ (addresses : List String) chainFilter responses,
        ((getTokensByAddresses addresses chainFilter responses).2).filter
            (fun e => !e.isPause)
          = (chunk30 addresses).map
              (fun b => BatchEvent.request (String.intercalate "," b)))
    ∧ (∀ (addresses : List String) chainFilter responses,
        (getTokensByAddresses addresses chainFilter (responses.map neutralize)).1
          = (getTokensByAddresses addresses chainFilter responses).1) := by
  refine ⟨chunk30_length_le, chunk30_flatten, chunk30_sizes_65, ?_, ?_⟩
  · intro addresses chainFilter responses
    unfold getTokensByAddresses
    by_cases he : addresses.isEmpty = true
    · have h0 : addresses = [] := List.isEmpty_iff.mp he
      subst h0
      simp [chunk30_nil]
    · rw [if_neg he]
      rw [runBatches_trace, pausePolicyTrace_requests]
  · intro addresses chainFilter responses
    unfold getTokensByAddresses
    by_cases he : addresses.isEmpty = true
    · rw [if_pos he, if_pos he]
    · rw [if_neg he, if_neg he]
      exact runBatches_neutralize _ _ _ _ _

/-- Witness for the C4 theorem: 65 concrete addresses are chunked into
sizes 30, 30, 5. -/
theorem getTokensByAddresses_chunking_witness :
    (chunk30 (List.replicate 65 "a")).map List.length = [30, 30, 5] :=
  getTokensByAddresses_chunking.2.2.1 (List.replicate 65 "a") (by decide)

/-- C2 counterexample: 31 addresses make two chunks; with the first
chunk's HTTP call failing and the second succeeding, the emitted trace
has NO pause between the two chunk requests, but has one after the last
request — against the claimed 100ms pause exactly between consecutive
chunk requests regardless of success or failure. -/
theorem getTokensByAddresses_pause_cex :
    (getTokensByAddresses (List.replicate 31 "a") none
        [.failure, .success (some [])]).2
      = [BatchEvent.request (String.intercalate "," (List.replicate 30 "a")),
         BatchEvent.request "a", BatchEvent.pause 100] := by
  decide

/-- C2 (amended): the event trace of `getTokensByAddresses` follows this
pause policy: each chunk emits its request, followed by a 100ms pause
exactly when that chunk's fetch succeeded and more than one chunk exists
(so a pause also follows a successful last chunk, and no pause follows a
failed chunk); with a single chunk no pause occurs. -/
theorem getTokensByAddresses_pause_policy (addresses : List String)
    (chainFilter : Option String) (responses : List FetchOutcome) :
    (getTokensByAddresses addresses chainFilter responses).2
      = pausePolicyTrace (decide ((chunk30 addresses).length > 1))
          (chunk30 addresses) responses
    ∧ ((chunk30 addresses).length ≤ 1 →
        ((getTokensByAddresses addresses chainFilter responses).2).countP
          BatchEvent.isPause = 0) := by
  have hmain : (getTokensByAddresses addresses chainFilter responses).2
      = pausePolicyTrace (decide ((chunk30 addresses).length > 1))
          (chunk30 addresses) responses := by
    unfold getTokensByAddresses
    by_cases he : addresses.isEmpty = true
    · have h0 : addresses = [] := List.isEmpty_iff.mp he
      subst h0
      rw [if_pos he, chunk30_nil]
      rfl
    · rw [if_neg he]
      exact runBatches_trace _ _ _ _ _
  refine ⟨hmain, ?_⟩
  intro hle
  rw [hmain]
  have hdec : decide ((chunk30 addresses).length > 1) = false :=
    decide_eq_false (by omega)
  rw [hdec]
  exact pausePolicyTrace_countP_false _ _

/-- Witness for the amended C2 theorem: a single-chunk call emits no
pause at all. -/
theorem getTokensByAddresses_pause_policy_witness :
    ((getTokensByAddresses ["x"] none [.success (some [])]).2).countP
      BatchEvent.isPause = 0 :=
  (getTokensByAddresses_pause_policy ["x"] none [.success (some [])]).2 (by decide)

theorem groupPairsLoop_get_none (nc : Option String) (pairs : List DexScreenerPair)
    (addr : String) (acc : List (String × List DexScreenerPair))
    (hacc : mapGet acc addr = none)
    (h : ∀ p ∈ pairs, skipPair nc p = true ∨ p.baseToken.address ≠ addr) :
    mapGet (groupPairsLoop nc pairs acc) addr = none := by
  induction pairs generalizing acc with
  | nil => exact hacc
  | cons p rest ih =>
    simp only [groupPairsLoop]
    by_cases hskip : skipPair nc p = true
    · rw [if_pos hskip]
      exact ih acc hacc (fun q hq => h q (List.mem_cons_of_mem _ hq))
    · rw [if_neg hskip]
      rcases h p (List.mem_cons_self _ _) with hs | hs
      · exact absurd hs hskip
      · apply ih
        · rw [mapGet_mapSet, if_neg (Ne.symm hs)]
          exact hacc
        · exact fun q hq => h q (List.mem_cons_of_mem _ hq)

theorem insertBestLoop_get_none (grouped : List (String × List DexScreenerPair))
    (results : List (String × DexScreenerPair)) (addr : String)
    (hres : mapGet results addr = none)
    (hkeys : mapGet grouped addr = none) :
    mapGet (insertBestLoop grouped results) addr = none := by
  induction grouped generalizing results with
  | nil => exact hres
  | cons entry rest ih =>
    have hk : entry.1 ≠ addr := by
      intro hh
      simp [mapGet, hh] at hkeys
    have hrest : mapGet rest addr = none := by
      simp only [mapGet] at hkeys
      rw [if_neg hk] at hkeys
      exact hkeys
    cases he : entry.2 with
    | nil =>
      simp only [insertBestLoop, he]
      exact ih results hres hrest
    | cons p0 ps =>
      simp only [insertBestLoop, he]
      apply ih
      · rw [mapGet_mapSet, if_neg (Ne.symm hk)]
        exact hres
      · exact hrest

theorem mem_of_mem_tail {α : Type _} (rs : List α) (r : α) (h : r ∈ rs.tail) :
    r ∈ rs := by
  cases rs with
  | nil => cases h
  | cons a t => exact List.mem_cons_of_mem _ h

theorem runBatches_get_none (nc : Option String) (n : Nat)
    (bs : List (List String)) (rs : List FetchOutcome)
    (res : List (String × DexScreenerPair)) (addr : String)
    (hres : mapGet res addr = none)
    (h : ∀ r ∈ rs, ∀ p ∈ outcomePairs r,
        skipPair nc p = true ∨ p.baseToken.address ≠ addr) :
    mapGet (runBatches nc n bs rs res).1 addr = none := by
  induction bs generalizing rs res with
  | nil => exact hres
  | cons b rest ih =>
    simp only [runBatches]
    cases hr : rs.headD .failure with
    | failure =>
      simp only [hr]
      exact ih rs.tail res hres (fun r hrm => h r (mem_of_mem_tail rs r hrm))
    | success pf =>
      simp only [hr]
      have hrs : rs ≠ [] := by
        intro hh
        rw [hh] at hr
        exact FetchOutcome.noConfusion hr
      have hmem : FetchOutcome.success pf ∈ rs := by
        cases rs with
        | nil => cases hrs rfl
        | cons r0 rt =>
          rw [List.headD_cons] at hr
          rw [← hr]
          exact List.mem_cons_self _ _
      show mapGet (runBatches nc n rest rs.tail
        (insertBestPairs res (groupPairs nc (pf.getD [])))).1 addr = none
      apply ih
      · apply insertBestLoop_get_none _ _ _ hres
        apply groupPairsLoop_get_none nc (pf.getD []) addr [] rfl
        intro p hp
        exact h _ hmem p hp
      · exact fun r hrm => h r (mem_of_mem_tail rs r hrm)

/-- C8: with a chain filter, every pair whose `chainId` differs from the
normalized filter is excluded before grouping, so an address all of whose
returned pairs lie on other chains is absent from the result map — there
is no cross-chain fallback in `getTokensByAddresses`. -/
theorem getTokensByAddresses_filter_excludes (addresses : List String)
    (chainFilter : Option String) (responses : List FetchOutcome)
    (c : String) (addr : String)
    (hc : mkNormalizedChain chainFilter = some c) (hc0 : c ≠ "")
    (h : ∀ r ∈ responses, ∀ p ∈ outcomePairs r,
        p.baseToken.address = addr → p.chainId ≠ c) :
    mapGet (getTokensByAddresses addresses chainFilter responses).1 addr = none := by
  unfold getTokensByAddresses
  by_cases he : addresses.isEmpty = true
  · rw [if_pos he]
    rfl
  · rw [if_neg he, hc]
    apply runBatches_get_none
    · rfl
    · intro r hr p hp
      by_cases ha : p.baseToken.address = addr
      · left
        have hne := h r hr p hp ha
        simp [skipPair, hc0, hne]
      · right
        exact ha

/-- Witness for the C8 theorem: one address whose only returned pair is on
ethereum, filtered by "SOL" (normalized "solana"), is absent. -/
theorem getTokensByAddresses_filter_excludes_witness :
    mapGet (getTokensByAddresses ["a"] (some "SOL")
        [.success (some [crossChainPair])]).1 "a" = none :=
  getTokensByAddresses_filter_excludes ["a"] (some "SOL")
    [.success (some [crossChainPair])]
    "solana" "a" (by decide) (by decide) (by decide)
